import Mathlib

/-!
Verification development for the slang SystemVerilog front-end core.

Shallow embedding of:
  * the semantic constraint model (src/include/slang/binding/Constraints.h),
  * time-scale values (src/unnamed/part_000, Time.cpp),
  * command-line parsing (src/unnamed/part_001, CommandLine.cpp),
  * and, modelled from the spec where the implementation is not in the
    repository snapshot, the lexer round-trip property and the parser's
    speculative-lookahead disambiguation helpers (src/include/Parser.h only
    declares them).
-/

set_option maxHeartbeats 1000000
set_option maxRecDepth 4000

namespace Slang

/-! ## Constraints (src/include/slang/binding/Constraints.h) -/

/-- The `ConstraintKind` enum: `CONSTRAINT(x) x(Invalid) x(List) x(Expression)
x(Implication) x(Conditional) x(Uniqueness)`. -/
inductive ConstraintKind where
  | Invalid
  | List
  | Expression
  | Implication
  | Conditional
  | Uniqueness
  deriving DecidableEq, Repr

/-- Placeholder for the semantic `Expression` node: constraints only hold
references to expressions, never inspect them, so an abstract id suffices. -/
structure Expression where
  id : Nat
  deriving DecidableEq, Repr

/-- The closed family of concrete constraint classes. Each constructor
corresponds to one subclass of `Constraint`; the constructor arguments are the
fields that subclass's C++ constructor stores. -/
inductive Constraint where
  /-- `InvalidConstraint(const Constraint* child)` -/
  | invalid (child : Option Constraint)
  /-- `ConstraintList(span<const Constraint* const> list)` -/
  | list (items : List Constraint)
  /-- `ExpressionConstraint(const Expression& expr, bool isSoft)` -/
  | expression (expr : Expression) (isSoft : Bool)
  /-- `ImplicationConstraint(const Expression& predicate, const Constraint& body)` -/
  | implication (predicate : Expression) (body : Constraint)
  /-- `ConditionalConstraint(const Expression& predicate, const Constraint& ifBody, const Constraint* elseBody)` -/
  | conditional (predicate : Expression) (ifBody : Constraint) (elseBody : Option Constraint)
  /-- `UniquenessConstraint(span<const Expression* const> items)` -/
  | uniqueness (items : List Expression)

namespace Constraint

/-- The `kind` tag each subclass constructor passes to the protected
`Constraint(ConstraintKind kind)` base constructor. -/
def kind : Constraint → ConstraintKind
  | .invalid _ => .Invalid
  | .list _ => .List
  | .expression _ _ => .Expression
  | .implication _ _ => .Implication
  | .conditional _ _ _ => .Conditional
  | .uniqueness _ => .Uniqueness

/-- `bool Constraint::bad() const { return kind == ConstraintKind::Invalid; }` -/
def bad (c : Constraint) : Bool := c.kind == ConstraintKind.Invalid

/-- Modelled from the spec: `Constraint::badConstraint` is only declared in the
header; the spec's failure policy says any bind that cannot produce a
well-typed result returns an `Invalid` node with a pointer to the best partial
child, so `badConstraint` wraps the child in an `InvalidConstraint`. -/
def badConstraint (child : Option Constraint) : Constraint := .invalid child

end Constraint

/-- `InvalidConstraint::isKind`: `kind == ConstraintKind::Invalid`. -/
def InvalidConstraint.isKind (k : ConstraintKind) : Bool := k == ConstraintKind.Invalid

/-- `ConstraintList::isKind`: `kind == ConstraintKind::List`. -/
def ConstraintList.isKind (k : ConstraintKind) : Bool := k == ConstraintKind.List

/-- `ExpressionConstraint::isKind`: `kind == ConstraintKind::Expression`. -/
def ExpressionConstraint.isKind (k : ConstraintKind) : Bool := k == ConstraintKind.Expression

/-- `ImplicationConstraint::isKind`: `kind == ConstraintKind::Implication`. -/
def ImplicationConstraint.isKind (k : ConstraintKind) : Bool := k == ConstraintKind.Implication

/-- `ConditionalConstraint::isKind`: `kind == ConstraintKind::Conditional`. -/
def ConditionalConstraint.isKind (k : ConstraintKind) : Bool := k == ConstraintKind.Conditional

/-- `UniquenessConstraint::isKind`: `kind == ConstraintKind::Uniqueness`. -/
def UniquenessConstraint.isKind (k : ConstraintKind) : Bool := k == ConstraintKind.Uniqueness

/-! ## Time (src/unnamed/part_000, Time.cpp) -/

/-- `TimeUnit` from slang/numeric/Time.h. The enum lists physically larger
units first, so the underlying values run Seconds = 0 .. Femtoseconds = 5
(the comparison in Time.cpp relies on this reversed order). -/
inductive TimeUnit where
  | Seconds
  | Milliseconds
  | Microseconds
  | Nanoseconds
  | Picoseconds
  | Femtoseconds
  deriving DecidableEq, Repr, Fintype

/-- The underlying integer value of a `TimeUnit` enumerator. -/
def TimeUnit.val : TimeUnit → Nat
  | .Seconds => 0
  | .Milliseconds => 1
  | .Microseconds => 2
  | .Nanoseconds => 3
  | .Picoseconds => 4
  | .Femtoseconds => 5

/-- Modelled from the spec: `TimeScaleMagnitude` is declared in
slang/numeric/Time.h (not in the snapshot); `fromLiteral` maps the literal
values 1, 10, 100 to its enumerators and `toString` prints
`std::to_string(int(magnitude))`, so the enumerators carry those values. -/
inductive TimeScaleMagnitude where
  | One
  | Ten
  | Hundred
  deriving DecidableEq, Repr, Fintype

/-- The underlying integer value of a `TimeScaleMagnitude` enumerator. -/
def TimeScaleMagnitude.val : TimeScaleMagnitude → Int
  | .One => 1
  | .Ten => 10
  | .Hundred => 100

/-- A `TimeScaleValue`: a unit plus a magnitude. -/
structure TimeScaleValue where
  unit : TimeUnit
  magnitude : TimeScaleMagnitude
  deriving DecidableEq, Repr, Fintype

/-- `suffixToTimeUnit`: lookup in the `strToUnit` string table. Returns the
unit on success (the C++ version writes through an out-parameter and returns a
bool). -/
def suffixToTimeUnit (timeSuffix : String) : Option TimeUnit :=
  if timeSuffix = "s" then some .Seconds
  else if timeSuffix = "ms" then some .Milliseconds
  else if timeSuffix = "us" then some .Microseconds
  else if timeSuffix = "ns" then some .Nanoseconds
  else if timeSuffix = "ps" then some .Picoseconds
  else if timeSuffix = "fs" then some .Femtoseconds
  else none

/-- `timeUnitToSuffix`. -/
def timeUnitToSuffix : TimeUnit → String
  | .Seconds => "s"
  | .Milliseconds => "ms"
  | .Microseconds => "us"
  | .Nanoseconds => "ns"
  | .Picoseconds => "ps"
  | .Femtoseconds => "fs"

/-- `TimeScaleValue::fromLiteral(double value, TimeUnit unit)`. The literal
value reaching this function is an integer (the lexer's token value or
`std::stoi`'s result widened to double, on which `==` against 1, 10, 100 is
exact), so the embedding takes an `Int`. -/
def TimeScaleValue.fromLiteral (value : Int) (unit : TimeUnit) : Option TimeScaleValue :=
  if value = 1 then some ⟨unit, .One⟩
  else if value = 10 then some ⟨unit, .Ten⟩
  else if value = 100 then some ⟨unit, .Hundred⟩
  else none

/-- `TimeScaleValue::toString`: `std::to_string(int(magnitude))` followed by
the unit suffix. -/
def TimeScaleValue.toString (tv : TimeScaleValue) : String :=
  ToString.toString tv.magnitude.val ++ timeUnitToSuffix tv.unit

/-- Decimal value of a digit run. -/
def digitsToNat (ds : List Char) : Nat :=
  ds.foldl (fun acc c => acc * 10 + (c.toNat - '0'.toNat)) 0

/-- `std::stoi` as used by the `TimeScaleValue(string_view)` constructor:
parse an optional sign and a maximal digit run at the front of the string,
returning the value and the index one past the consumed prefix; `none` models
the `std::invalid_argument` exception when no digits are present. (The
constructor's inputs never overflow `int`.) -/
def stoiModel (s : List Char) : Option (Int × Nat) :=
  match s with
  | '-' :: rest =>
      let digits := rest.takeWhile Char.isDigit
      if digits.isEmpty then none
      else some (-(Int.ofNat (digitsToNat digits)), 1 + digits.length)
  | '+' :: rest =>
      let digits := rest.takeWhile Char.isDigit
      if digits.isEmpty then none
      else some (Int.ofNat (digitsToNat digits), 1 + digits.length)
  | _ =>
      let digits := s.takeWhile Char.isDigit
      if digits.isEmpty then none
      else some (Int.ofNat (digitsToNat digits), digits.length)

/-- `TimeScaleValue::TimeScaleValue(string_view str)`: `stoi`, skip spaces,
map the suffix, `fromLiteral`. `none` models the thrown
`std::invalid_argument`. -/
def TimeScaleValue.fromString (str : String) : Option TimeScaleValue := do
  let cs := str.toList
  let (i, idx) ← stoiModel cs
  let rest := (cs.drop idx).dropWhile (· = ' ')
  if rest.isEmpty then none
  else do
    let u ← suffixToTimeUnit (String.mk rest)
    TimeScaleValue.fromLiteral i u

/-- `TimeScaleValue::operator>`: the unit enum is specified in reverse order,
so it checks in the opposite direction, then falls back to the magnitude. -/
def TimeScaleValue.gt (a b : TimeScaleValue) : Bool :=
  if a.unit.val < b.unit.val then true
  else if a.unit.val > b.unit.val then false
  else a.magnitude.val > b.magnitude.val

/-- `TimeScaleValue::operator==`: unit and magnitude both equal. -/
def TimeScaleValue.eq (a b : TimeScaleValue) : Bool :=
  a.unit == b.unit && a.magnitude == b.magnitude

/-! ## Command line parsing (src/unnamed/part_001, CommandLine.cpp) -/

/-- Split a character list at the first occurrence of `c`
(`find_first_of`): the part before, and—if `c` occurs—the part after. -/
def splitFirst (c : Char) : List Char → List Char × Option (List Char)
  | [] => ([], none)
  | x :: xs =>
      if x = c then ([], some xs)
      else
        let (a, b) := splitFirst c xs
        (x :: a, b)

/-- `fs::path(arg).filename()`: the component after the last slash. -/
def pathFilename (s : List Char) : List Char :=
  (s.reverse.takeWhile (· ≠ '/')).reverse

/-- The `OptionStorage` variant held by an option, in the order of the C++
`std::variant` (`optional<bool>` is index 0, so only it reports
`expectsValue() == false`). Doubles are kept as their validated source text:
only parse success or failure is observable to the command-line layer. -/
inductive Storage where
  | optBool (v : Option Bool)
  | optI32 (v : Option Int)
  | optU32 (v : Option Nat)
  | optI64 (v : Option Int)
  | optU64 (v : Option Nat)
  | optDouble (v : Option String)
  | optStr (v : Option String)
  | vecI32 (v : List Int)
  | vecU32 (v : List Nat)
  | vecI64 (v : List Int)
  | vecU64 (v : List Nat)
  | vecDouble (v : List String)
  | vecStr (v : List String)
  deriving DecidableEq, Repr, Inhabited

/-- `Option::expectsValue(): storage.index() != 0`. -/
def Storage.expectsValue : Storage → Bool
  | .optBool _ => false
  | _ => true

/-- `allowValue` (declared in CommandLine.h, not in the snapshot): an
`optional` target accepts a value only while unset, a `vector` target always
accepts. -/
def Storage.allowValue : Storage → Bool
  | .optBool v => v.isNone
  | .optI32 v => v.isNone
  | .optU32 v => v.isNone
  | .optI64 v => v.isNone
  | .optU64 v => v.isNone
  | .optDouble v => v.isNone
  | .optStr v => v.isNone
  | _ => true

/-- `parseBool`: empty means the flag was given, `True`/`true` and
`False`/`false` are accepted, anything else is an error (and the target is
overwritten with `nullopt`). -/
def parseBool (name value : String) : Option Bool × String :=
  if value = "" then (some true, "")
  else if value = "True" ∨ value = "true" then (some true, "")
  else if value = "False" ∨ value = "false" then (some false, "")
  else (none, "invalid value '" ++ value ++ "' for boolean argument '" ++ name ++ "'")

/-- `std::from_chars` for an integer type with the given signedness and
range: an optional minus sign (signed types only) followed by a nonempty
digit run consuming the whole string, with the value in range. -/
def fromCharsInt (signed : Bool) (lo hi : Int) (s : List Char) : Option Int :=
  match s with
  | '-' :: rest =>
      if signed ∧ ¬rest.isEmpty ∧ rest.all Char.isDigit then
        let v : Int := -(Int.ofNat (digitsToNat rest))
        if lo ≤ v ∧ v ≤ hi then some v else none
      else none
  | _ =>
      if ¬s.isEmpty ∧ s.all Char.isDigit then
        let v : Int := Int.ofNat (digitsToNat s)
        if lo ≤ v ∧ v ≤ hi then some v else none
      else none

/-- `parseInt<T>`: empty value is an "expected value" error; otherwise
`from_chars` must consume the whole string or the value is invalid. -/
def parseIntM (signed : Bool) (lo hi : Int) (name value : String) : Option Int × String :=
  if value = "" then (none, "expected value for argument '" ++ name ++ "'")
  else
    match fromCharsInt signed lo hi value.toList with
    | some v => (some v, "")
    | none => (none, "invalid value '" ++ value ++ "' for integer argument '" ++ name ++ "'")

/-- The whitespace set `strtod` skips before the subject sequence
(`isspace` in the C locale). -/
def isStrtodSpace (c : Char) : Bool :=
  c = ' ' ∨ c = '\t' ∨ c = '\n' ∨ c = '\x0b' ∨ c = '\x0c' ∨ c = '\r'

/-- Drop one optional leading sign. -/
def dropSign : List Char → List Char
  | '+' :: t => t
  | '-' :: t => t
  | s => s

/-- Exponent tail of a float: optional sign then a nonempty digit run. -/
def validExpTail (s : List Char) : Bool :=
  match s with
  | '+' :: t => ¬t.isEmpty ∧ t.all Char.isDigit
  | '-' :: t => ¬t.isEmpty ∧ t.all Char.isDigit
  | t => ¬t.isEmpty ∧ t.all Char.isDigit

/-- After a decimal mantissa: either the end of the string or a full decimal
exponent (a dangling `e` makes `strtod` stop before it, so the whole string
is not consumed). -/
def expOrEnd : List Char → Bool
  | [] => true
  | c :: t => (c = 'e' ∨ c = 'E') ∧ validExpTail t

/-- Unsigned decimal mantissa plus optional exponent, consuming the whole
string. -/
def validDoubleBody (s : List Char) : Bool :=
  let ip := s.takeWhile Char.isDigit
  let r1 := s.dropWhile Char.isDigit
  match r1 with
  | '.' :: t =>
      let fp := t.takeWhile Char.isDigit
      let r2 := t.dropWhile Char.isDigit
      if ip.isEmpty ∧ fp.isEmpty then false else expOrEnd r2
  | r => if ip.isEmpty then false else expOrEnd r

/-- Hexadecimal digit. -/
def isHexDigitC (c : Char) : Bool :=
  c.isDigit ∨ ('a' ≤ c ∧ c ≤ 'f') ∨ ('A' ≤ c ∧ c ≤ 'F')

/-- After a hexadecimal mantissa: end of string or a full binary exponent. -/
def binExpOrEnd : List Char → Bool
  | [] => true
  | c :: t => (c = 'p' ∨ c = 'P') ∧ validExpTail t

/-- The part after `0x`/`0X`: a nonempty hexadecimal digit sequence
optionally containing a period, then an optional binary exponent, consuming
the whole string. -/
def validHexBody (s : List Char) : Bool :=
  let ip := s.takeWhile isHexDigitC
  let r1 := s.dropWhile isHexDigitC
  match r1 with
  | '.' :: t =>
      let fp := t.takeWhile isHexDigitC
      let r2 := t.dropWhile isHexDigitC
      if ip.isEmpty ∧ fp.isEmpty then false else binExpOrEnd r2
  | r => if ip.isEmpty then false else binExpOrEnd r

/-- Case-insensitive match of a lowercase pattern against the front of the
input, returning the rest on success. -/
def matchInsensitive : List Char → List Char → Option (List Char)
  | [], s => some s
  | _ :: _, [] => none
  | p :: ps, c :: cs => if c.toLower = p then matchInsensitive ps cs else none

/-- Characters of a `nan(n-char-sequence)`; the exact set is
implementation-defined, modelled as alphanumerics and underscore. -/
def nanCharP (c : Char) : Bool := c.isAlphanum ∨ c = '_'

/-- `INF`/`INFINITY` and `NAN`/`NAN(n-char-sequence)` spellings, any case,
consuming the whole string (a partial spelling such as `infin` makes
`strtod` stop after `inf`, so the whole string is not consumed). -/
def validInfNan (s : List Char) : Bool :=
  match matchInsensitive "inf".toList s with
  | some rest =>
      rest.isEmpty ||
        (match matchInsensitive "inity".toList rest with
         | some r2 => r2.isEmpty
         | none => false)
  | none =>
      match matchInsensitive "nan".toList s with
      | some rest =>
          rest.isEmpty ||
            (match rest with
             | '(' :: t => t.dropWhile nanCharP == [')']
             | _ => false)
      | none => false

/-- `strtod` consuming the whole string: optional leading whitespace and
sign, then a decimal float, a `0x`/`0X` hexadecimal float, or an
infinity/NaN spelling. -/
def validDouble (s : List Char) : Bool :=
  let s2 := dropSign (s.dropWhile isStrtodSpace)
  match s2 with
  | '0' :: x :: t =>
      if x = 'x' ∨ x = 'X' then validHexBody t else validDoubleBody s2
  | _ => validDoubleBody s2 ∨ validInfNan s2

/-- `parseDouble`: empty value is an "expected value" error; otherwise
`strtod` must consume the whole string. The parsed value is kept as its
source text. -/
def parseDoubleM (name value : String) : Option String × String :=
  if value = "" then (none, "expected value for argument '" ++ name ++ "'")
  else if validDouble value.toList then (some value, "")
  else (none, "invalid value '" ++ value ++ "' for float argument '" ++ name ++ "'")

/-- `Option::set(name, value)`: refuse a second value for an already-set
`optional` target, otherwise dispatch on the storage variant; optional
targets are overwritten with the parse result (nullopt on error), vector
targets append only on success. The string is the error message, empty on
success. -/
def Storage.set (stor : Storage) (name value : String) : Storage × String :=
  if ¬stor.allowValue then
    (stor, "more than one value provided for argument '" ++ name ++ "'")
  else
    match stor with
    | .optBool _ => let (v, e) := parseBool name value; (.optBool v, e)
    | .optI32 _ =>
        let (v, e) := parseIntM true (-2147483648) 2147483647 name value; (.optI32 v, e)
    | .optU32 _ =>
        let (v, e) := parseIntM false 0 4294967295 name value
        (.optU32 (v.map Int.toNat), e)
    | .optI64 _ =>
        let (v, e) := parseIntM true (-9223372036854775808) 9223372036854775807 name value
        (.optI64 v, e)
    | .optU64 _ =>
        let (v, e) := parseIntM false 0 18446744073709551615 name value
        (.optU64 (v.map Int.toNat), e)
    | .optDouble _ => let (v, e) := parseDoubleM name value; (.optDouble v, e)
    | .optStr _ => (.optStr (some value), "")
    | .vecI32 xs =>
        let (v, e) := parseIntM true (-2147483648) 2147483647 name value
        (.vecI32 (xs ++ v.toList), e)
    | .vecU32 xs =>
        let (v, e) := parseIntM false 0 4294967295 name value
        (.vecU32 (xs ++ (v.map Int.toNat).toList), e)
    | .vecI64 xs =>
        let (v, e) := parseIntM true (-9223372036854775808) 9223372036854775807 name value
        (.vecI64 (xs ++ v.toList), e)
    | .vecU64 xs =>
        let (v, e) := parseIntM false 0 18446744073709551615 name value
        (.vecU64 (xs ++ (v.map Int.toNat).toList), e)
    | .vecDouble xs =>
        let (v, e) := parseDoubleM name value
        (.vecDouble (xs ++ v.toList), e)
    | .vecStr xs => (.vecStr (xs ++ [value]), "")

/-- One registered option record. -/
structure CmdOption where
  desc : String := ""
  valueName : String := ""
  allArgNames : String := ""
  storage : Storage := .optBool none
  deriving DecidableEq, Repr, Inhabited

/-- The command-line parser state. `optionMap` maps a dash-stripped name to
an index into `options` (aliased names share an index, mirroring the shared
pointers); the positional option's `vector<string>` storage is
`positionalValues`. -/
structure CommandLine where
  optionMap : List (String × Nat) := []
  options : List CmdOption := []
  positionalSet : Bool := false
  positionalValues : List String := []
  programName : String := ""
  errors : List String := []
  deriving DecidableEq, Repr, Inhabited

/-- Access an option record by index (indices produced by the parser are
always in range). -/
def CommandLine.optGet (cl : CommandLine) (idx : Nat) : CmdOption :=
  cl.options.getD idx default

/-- Write back an option's storage after `Option::set`, returning the error
message. -/
def CommandLine.setOption (cl : CommandLine) (idx : Nat) (name value : String) :
    CommandLine × String :=
  let o := cl.optGet idx
  let (st', err) := o.storage.set name value
  ({ cl with options := cl.options.set idx { o with storage := st' } }, err)

/-- `CommandLine::findOption`: strip a value after the first `=` (leaving the
caller's `value` alone otherwise) and look the name up in the map. -/
def CommandLine.findOption (cl : CommandLine) (arg value : List Char) :
    Option Nat × List Char :=
  let (nm, v) := splitFirst '=' arg
  let value' := match v with
    | some tail => tail
    | none => value
  (cl.optionMap.lookup (String.mk nm), value')

/-- `CommandLine::tryGroupOrPrefix`: peel single-character flag options off
the front of `arg`, setting each (errors from these sets are discarded, as in
the source); stop at the first option that expects a value or when the rest
is empty, treating the rest (minus a leading `=`) as that option's value.
Returns the found option, the mutated by-reference `arg`, the mutated
`value`, and the updated state. -/
def CommandLine.tryGroupOrPrefix (cl : CommandLine) (arg value : List Char) :
    Option Nat × List Char × List Char × CommandLine :=
  match arg with
  | [] => (none, [], value, cl)
  | c :: rest =>
      let (opt, v1) := cl.findOption [c] value
      match opt with
      | none => (none, c :: rest, v1, cl)
      | some idx =>
          let value2 := rest
          if (cl.optGet idx).storage.expectsValue ∨ value2.isEmpty then
            let value3 := match value2 with
              | '=' :: t => t
              | v => v
            (some idx, c :: rest, value3, cl)
          else
            let cl' := (cl.setOption idx (String.mk [c]) "").1
            cl'.tryGroupOrPrefix rest value2

/-- `editDistance` (declared in String.h, not in the snapshot): Levenshtein
distance with replacements allowed; the source's distance cap is only an
early-exit optimization. -/
def levenshtein (xs ys : List Char) : Nat :=
  match xs, ys with
  | [], ys => ys.length
  | xs, [] => xs.length
  | x :: xs', y :: ys' =>
      if x = y then levenshtein xs' ys'
      else 1 + min (levenshtein xs' (y :: ys')) (min (levenshtein (x :: xs') ys') (levenshtein xs' ys'))
  termination_by (xs.length, ys.length)

/-- Insert into a sorted list of strings. -/
def insertSorted (s : String) : List String → List String
  | [] => [s]
  | x :: xs => if s < x then s :: x :: xs else x :: insertSorted s xs

/-- Sort strings ascending (`std::map` iterates its keys in sorted order). -/
def sortStrings (l : List String) : List String := l.foldr insertSorted []

/-- `CommandLine::findNearestMatch`: for arguments longer than two
characters, the registered name (with its dashes restored) closest to the
argument within edit distance 4, if any. -/
def CommandLine.findNearestMatch (cl : CommandLine) (arg : List Char) : String :=
  if arg.length ≤ 2 then ""
  else
    let argStripped := (splitFirst '=' arg).1
    let keys := sortStrings (cl.optionMap.map Prod.fst)
    let best := keys.foldl
      (fun (best : String × Nat) key =>
        let d := levenshtein key.toList argStripped
        if d < best.2 then (key, d) else best)
      ("", 5)
    if best.1 = "" then ""
    else if best.1.length = 1 then "-" ++ best.1
    else "--" ++ best.1

/-- The loop-carried state of `CommandLine::parse`'s argument loop. -/
structure LoopState where
  expectingVal : Option Nat
  expectingValName : String
  doubleDash : Bool
  hadUnknowns : Bool
  positionalArgs : List String
  cl : CommandLine
  deriving Repr

/-- One iteration of the argument loop of `CommandLine::parse`. -/
def parseStep (st : LoopState) (argS : String) : LoopState :=
  match st.expectingVal with
  | some idx =>
      let (cl1, err) := st.cl.setOption idx st.expectingValName argS
      let cl2 := if err = "" then cl1
        else { cl1 with errors := cl1.errors ++ [cl1.programName ++ ": " ++ err] }
      { st with cl := cl2, expectingVal := none }
  | none =>
      let arg := argS.toList
      if arg.length ≤ 1 ∨ arg.headD ' ' ≠ '-' ∨ st.doubleDash then
        { st with positionalArgs := st.positionalArgs ++ [argS] }
      else if argS = "--" then
        { st with doubleDash := true }
      else
        let name0 := arg.tail
        let (longName, name) := match name0 with
          | '-' :: t => (true, t)
          | n => (false, n)
        let (opt0, value0) := st.cl.findOption name []
        let (opt1, argOut, value1, cl1) :=
          match opt0 with
          | some idx => (some idx, arg, value0, st.cl)
          | none =>
              if longName then (none, arg, value0, st.cl)
              else
                let (o, nmOut, v, cl') := st.cl.tryGroupOrPrefix name value0
                match o with
                | some idx => (some idx, nmOut, v, cl')
                | none => (none, arg, v, cl')
        match opt1 with
        | none =>
            let base := cl1.programName ++ ": unknown command line argument '" ++
              String.mk arg ++ "'"
            let nearest := cl1.findNearestMatch arg
            let msg := if nearest = "" then base
              else base ++ ", did you mean '" ++ nearest ++ "'?"
            { st with hadUnknowns := true,
                      cl := { cl1 with errors := cl1.errors ++ [msg] } }
        | some idx =>
            if value1.isEmpty ∧ (cl1.optGet idx).storage.expectsValue then
              { st with cl := cl1, expectingVal := some idx,
                        expectingValName := String.mk argOut }
            else
              let (cl2, err) := cl1.setOption idx (String.mk argOut) (String.mk value1)
              let cl3 := if err = "" then cl2
                else { cl2 with errors := cl2.errors ++ [cl2.programName ++ ": " ++ err] }
              { st with cl := cl3 }

/-- `CommandLine::parse(span<const string_view>)`: the thrown
`std::runtime_error`s become `Except.error`; otherwise the loop runs over the
arguments after the program name, the trailing expected-value and positional
checks append their errors, and the call returns whether the error list is
empty, with the final state. -/
def CommandLine.parse (cl : CommandLine) (args : List String) :
    Except String (Bool × CommandLine) :=
  match args with
  | [] => Except.error "Expected at least one argument"
  | a0 :: rest =>
      if cl.optionMap.isEmpty then Except.error "No options defined"
      else
        let cl0 := { cl with programName := String.mk (pathFilename a0.toList) }
        let st0 : LoopState := ⟨none, "", false, false, [], cl0⟩
        let st := rest.foldl parseStep st0
        let cl1 := st.cl
        let cl2 := match st.expectingVal with
          | some _ =>
              { cl1 with errors := cl1.errors ++ [cl1.programName ++
                  ": no value provided for argument '" ++ st.expectingValName ++ "'"] }
          | none => cl1
        let cl3 :=
          if cl2.positionalSet then
            { cl2 with positionalValues := cl2.positionalValues ++ st.positionalArgs }
          else if ¬st.positionalArgs.isEmpty ∧ ¬st.hadUnknowns then
            { cl2 with errors := cl2.errors ++ [cl2.programName ++
                ": positional arguments are not allowed (see e.g. '" ++
                st.positionalArgs.headD "" ++ "')"] }
          else cl2
        Except.ok (cl3.errors.isEmpty, cl3)

/-- A small demonstration configuration: `--foo` takes an int32 value, `-f`
is a boolean flag, no positional argument is registered. -/
def demoCl : CommandLine :=
  { optionMap := [("foo", 0), ("f", 1)],
    options := [{ valueName := "val", allArgNames := "--foo", storage := .optI32 none },
                { allArgNames := "-f", storage := .optBool none }] }

/-! ## Lexer, trivia and disabled text (spec sections 3, 4.2-4.4)

The lexer and preprocessor sources are not in the snapshot; this model is
built from the spec's data model and invariant P1. -/

/-- Trivia kinds (the spec's variant, restricted to the kinds this model
produces; directive residue and skipped regions are collapsed into the
`disabledText` kind, whose raw text is all invariant P1 constrains). -/
inductive TriviaKind where
  | whitespace
  | lineComment
  | disabledText
  deriving DecidableEq, Repr

/-- A piece of trivia: kind plus raw text. -/
structure Trivia where
  kind : TriviaKind
  text : List Char
  deriving DecidableEq, Repr

/-- Token kinds of the model lexer. -/
inductive TokKind where
  | ident
  | number
  | directive
  | unknown
  | eof
  deriving DecidableEq, Repr

/-- A token: leading trivia, kind, raw text. -/
structure Tok where
  leading : List Trivia
  kind : TokKind
  text : List Char
  deriving DecidableEq, Repr

/-- The raw text of a token: its leading trivia's text followed by its own. -/
def Tok.rawText (t : Tok) : List Char := (t.leading.map Trivia.text).flatten ++ t.text

/-- The raw text of a stream, in pre-order. -/
def rawOf (ts : List Tok) : List Char := (ts.map Tok.rawText).flatten

/-- Whitespace characters. -/
def isWsChar (c : Char) : Bool := c = ' ' ∨ c = '\t' ∨ c = '\n' ∨ c = '\r'

/-- First character of an identifier. -/
def isIdentStart (c : Char) : Bool := c.isAlpha ∨ c = '_'

/-- Subsequent characters of an identifier. -/
def isIdentChar (c : Char) : Bool := c.isAlphanum ∨ c = '_'

/-- Non-newline characters (the body of a line comment). -/
def notNl (c : Char) : Bool := c ≠ '\n'

/-- Modelled from the spec: the single-pass lexer (`lex()` repeated to EOF).
`acc` carries the pending leading trivia. Whitespace runs and line comments
become trivia; identifier, number and backtick-led directive tokens take
maximal runs; an invalid character becomes a distinct `Unknown` token with
the offending byte as raw text; the final EOF token carries the buffer's
trailing trivia. -/
def lexLoop (acc : List Trivia) (cs : List Char) : List Tok :=
  match cs with
  | [] => [⟨acc, .eof, []⟩]
  | '/' :: '/' :: cs2 =>
      lexLoop (acc ++ [⟨.lineComment, '/' :: '/' :: cs2.takeWhile notNl⟩])
        (cs2.dropWhile notNl)
  | c :: cs' =>
      if isWsChar c then
        lexLoop (acc ++ [⟨.whitespace, c :: cs'.takeWhile isWsChar⟩])
          (cs'.dropWhile isWsChar)
      else if isIdentStart c then
        ⟨acc, .ident, c :: cs'.takeWhile isIdentChar⟩ ::
          lexLoop [] (cs'.dropWhile isIdentChar)
      else if c.isDigit then
        ⟨acc, .number, c :: cs'.takeWhile Char.isDigit⟩ ::
          lexLoop [] (cs'.dropWhile Char.isDigit)
      else if c = '`' then
        ⟨acc, .directive, c :: cs'.takeWhile isIdentChar⟩ ::
          lexLoop [] (cs'.dropWhile isIdentChar)
      else
        ⟨acc, .unknown, [c]⟩ :: lexLoop [] cs'
  termination_by cs.length
  decreasing_by
  · have := (List.dropWhile_sublist (l := cs2) (p := notNl)).length_le
    simp; omega
  · have := (List.dropWhile_sublist (l := cs') (p := isWsChar)).length_le
    simp; omega
  · have := (List.dropWhile_sublist (l := cs') (p := isIdentChar)).length_le
    simp; omega
  · have := (List.dropWhile_sublist (l := cs') (p := Char.isDigit)).length_le
    simp; omega
  · have := (List.dropWhile_sublist (l := cs') (p := isIdentChar)).length_le
    simp; omega
  · simp

/-- Lex a whole buffer. -/
def lexBuffer (cs : List Char) : List Tok := lexLoop [] cs

/-- Attach pending disabled text as a leading trivia of the next surviving
token (a no-op when nothing is pending). -/
def prependPending (pending : List Char) (t : Tok) : Tok :=
  if pending.isEmpty then t
  else { t with leading := ⟨.disabledText, pending⟩ :: t.leading }

/-- Is this the token of the given directive? -/
def isDirectiveTok (name : List Char) (t : Tok) : Bool :=
  t.kind == TokKind.directive && t.text == '`' :: name

/-- Modelled from the spec: the conditional-inclusion pass of the
preprocessor. While skipping, every token's raw text is collected into a
pending disabled-text range that is attached as trivia to the next surviving
token; at end of input with a still-open range the recovery of spec section 7
synthesizes the balancing frame at EOF, the range landing on the EOF token.
A taken `ifdef` keeps its directive and name tokens in the stream (directive
residue is not separately modelled; only raw text is constrained here). -/
def condAux (macros : List String) (skipping : Bool) (pending : List Char) :
    List Tok → List Tok
  | [] =>
      if pending.isEmpty then [] else [⟨[⟨.disabledText, pending⟩], .eof, []⟩]
  | t :: ts =>
      if skipping then
        if isDirectiveTok "endif".toList t then
          condAux macros false (pending ++ t.rawText) ts
        else
          condAux macros true (pending ++ t.rawText) ts
      else
        if isDirectiveTok "ifdef".toList t then
          match ts with
          | [] => [prependPending pending t]
          | n :: ts' =>
              if macros.contains (String.mk n.text) then
                prependPending pending t :: n :: condAux macros false [] ts'
              else
                condAux macros true (pending ++ t.rawText ++ n.rawText) ts'
        else
          prependPending pending t :: condAux macros false [] ts

/-- The preprocessor's conditional-inclusion pass over a token stream. -/
def condPass (macros : List String) (ts : List Tok) : List Tok :=
  condAux macros false [] ts

/-! ## Parser token stream and speculative lookahead (spec section 4.5)

Parser.h declares the disambiguation predicates and scanners but their bodies
are not in the snapshot; this model is built from the spec's rules for
speculative lookahead: a peek buffer valid for indices 0..3, a virtual cursor
that never exceeds that horizon, no consumption of the real stream, and the
more permissive answer when a decision would need more lookahead. -/

/-- Parser-level token kinds used by the lookahead and parser models. -/
inductive PTok where
  | eof
  | ident
  | number
  | comma
  | lparen
  | rparen
  | lbracket
  | rbracket
  | semi
  | doubleColon
  | dot
  | plus
  | inputKw
  | outputKw
  | inoutKw
  | wireKw
  | logicKw
  | moduleKw
  | endmoduleKw
  deriving DecidableEq, Repr

/-- The preprocessor-facing stream state: the post-expansion token stream and
the real cursor position of the parser. -/
structure PpState where
  stream : List PTok
  cursor : Nat
  deriving DecidableEq, Repr

/-- `peek(n)`: read the token `n` past the cursor without consuming (EOF
beyond the end). -/
def PpState.peek (s : PpState) (n : Nat) : PTok := s.stream.getD (s.cursor + n) .eof

/-- Modelled from the spec: `scanDimensionList` over a virtual index. Scans
`[ number ]` groups; each peek index is recorded; if the next group would
reach past the peek horizon the scanner answers permissively (`true`) without
peeking further. Returns (answer, final virtual index, peeked indices,
resulting stream state). -/
def scanDimensionList (s : PpState) (i : Nat) : Bool × Nat × List Nat × PpState :=
  if h : 3 < i then (true, i, [], s)
  else if s.peek i = .lbracket then
    if 3 < i + 2 then (true, i, [i], s)
    else if s.peek (i + 1) = .number ∧ s.peek (i + 2) = .rbracket then
      let (b, j, ps, s') := scanDimensionList s (i + 3)
      (b, j, i :: (i + 1) :: (i + 2) :: ps, s')
    else (false, i, [i, i + 1, i + 2], s)
  else (true, i, [i], s)
  termination_by 4 - i
  decreasing_by omega

/-- Modelled from the spec: `scanQualifiedName` over a virtual index. Scans
`ident (:: ident)*`, permissive at the horizon. -/
def scanQualifiedName (s : PpState) (i : Nat) : Bool × Nat × List Nat × PpState :=
  if h : 3 < i then (true, i, [], s)
  else if s.peek i = .ident then
    if 3 < i + 1 then (true, i + 1, [i], s)
    else if s.peek (i + 1) = .doubleColon then
      if 3 < i + 2 then (true, i + 2, [i, i + 1], s)
      else
        let (b, j, ps, s') := scanQualifiedName s (i + 2)
        (b, j, i :: (i + 1) :: ps, s')
    else (true, i + 1, [i, i + 1], s)
  else (false, i, [i], s)
  termination_by 4 - i
  decreasing_by omega

/-- Modelled from the spec: the `scanTypePart` helper over a virtual index,
generic in its start/end token kinds, permissive at the horizon. -/
def scanTypePart (s : PpState) (i : Nat) (startK endK : PTok) :
    Bool × Nat × List Nat × PpState :=
  if h : 3 < i then (true, i, [], s)
  else if s.peek i = startK then
    if 3 < i + 1 then (true, i, [i], s)
    else if s.peek (i + 1) = endK then
      let (b, j, ps, s') := scanTypePart s (i + 2) startK endK
      (b, j, i :: (i + 1) :: ps, s')
    else (false, i, [i, i + 1], s)
  else (true, i, [i], s)
  termination_by 4 - i
  decreasing_by omega

/-- Modelled from the spec: `isPortDeclaration` inspects the peek buffer for
a port-direction keyword. Returns (answer, peeked indices, resulting state). -/
def isPortDeclaration (s : PpState) : Bool × List Nat × PpState :=
  (s.peek 0 = .inputKw ∨ s.peek 0 = .outputKw ∨ s.peek 0 = .inoutKw, [0], s)

/-- Modelled from the spec: `isNetDeclaration` checks for a net-type
keyword. -/
def isNetDeclaration (s : PpState) : Bool × List Nat × PpState :=
  (s.peek 0 = .wireKw, [0], s)

/-- Modelled from the spec: `isVariableDeclaration` checks for a data-type
keyword or a qualified type name followed by a declarator identifier,
permissive at the horizon. -/
def isVariableDeclaration (s : PpState) : Bool × List Nat × PpState :=
  if s.peek 0 = .logicKw then (true, [0], s)
  else if s.peek 0 = .ident then
    let (ok, j, ps, s') := scanQualifiedName s 0
    if ¬ok then (false, ps, s')
    else if 3 < j then (true, ps, s')
    else (s'.peek j = .ident, ps ++ [j], s')
  else (false, [0], s)

/-- Modelled from the spec: `isHierarchyInstantiation` looks for
`ident ident (`. -/
def isHierarchyInstantiation (s : PpState) : Bool × List Nat × PpState :=
  if s.peek 0 = .ident then
    if s.peek 1 = .ident then (s.peek 2 = .lparen, [0, 1, 2], s)
    else (false, [0, 1], s)
  else (false, [0], s)

/-- Modelled from the spec: `isNonAnsiPort` looks for `.ident` or an
identifier with optional dimensions. -/
def isNonAnsiPort (s : PpState) : Bool × List Nat × PpState :=
  if s.peek 0 = .dot then (s.peek 1 = .ident, [0, 1], s)
  else if s.peek 0 = .ident then
    let (ok, _, ps, s') := scanDimensionList s 1
    (ok, 0 :: ps, s')
  else (false, [0], s)

/-- Modelled from the spec: `isPlainPortName` looks for an identifier,
optional dimensions, then a comma or close parenthesis, permissive at the
horizon. -/
def isPlainPortName (s : PpState) : Bool × List Nat × PpState :=
  if s.peek 0 = .ident then
    let (ok, j, ps, s') := scanDimensionList s 1
    if ¬ok then (false, 0 :: ps, s')
    else if 3 < j then (true, 0 :: ps, s')
    else (s'.peek j = .comma ∨ s'.peek j = .rparen, 0 :: ps ++ [j], s')
  else (false, [0], s)

/-! ## Theorems about constraints -/

/-- C1: `bad()` returns true iff the node's kind is `Invalid`; an
`InvalidConstraint` always satisfies `bad()`, and a node produced by
`badConstraint` wrapping an invalid child satisfies `bad()` as well. -/
theorem constraint_bad_iff_invalid :
    (∀ c : Constraint, c.bad = true ↔ c.kind = ConstraintKind.Invalid)
  ∧ (∀ child, (Constraint.invalid child).bad = true)
  ∧ (∀ child, (Constraint.badConstraint child).bad = true) := by
  refine ⟨fun c => ?_, fun _ => rfl, fun _ => rfl⟩
  simp [Constraint.bad]

/-- C6: `ConstraintKind` is the closed six-element enum; each concrete
constraint constructor tags the node with its own variant; each class's
`isKind` accepts exactly its own variant, so for a node of class T,
`T::isKind(node.kind)` holds and `U::isKind(node.kind)` fails for U ≠ T. -/
theorem constraintKind_closed_and_isKind_exclusive :
    (∀ k : ConstraintKind, k = .Invalid ∨ k = .List ∨ k = .Expression ∨
      k = .Implication ∨ k = .Conditional ∨ k = .Uniqueness)
  ∧ (∀ ch, (Constraint.invalid ch).kind = .Invalid)
  ∧ (∀ l, (Constraint.list l).kind = .List)
  ∧ (∀ e s, (Constraint.expression e s).kind = .Expression)
  ∧ (∀ p b, (Constraint.implication p b).kind = .Implication)
  ∧ (∀ p i e, (Constraint.conditional p i e).kind = .Conditional)
  ∧ (∀ xs, (Constraint.uniqueness xs).kind = .Uniqueness)
  ∧ (∀ k, InvalidConstraint.isKind k = true ↔ k = .Invalid)
  ∧ (∀ k, ConstraintList.isKind k = true ↔ k = .List)
  ∧ (∀ k, ExpressionConstraint.isKind k = true ↔ k = .Expression)
  ∧ (∀ k, ImplicationConstraint.isKind k = true ↔ k = .Implication)
  ∧ (∀ k, ConditionalConstraint.isKind k = true ↔ k = .Conditional)
  ∧ (∀ k, UniquenessConstraint.isKind k = true ↔ k = .Uniqueness) := by
  refine ⟨fun k => by cases k <;> simp, fun _ => rfl, fun _ => rfl, fun _ _ => rfl,
    fun _ _ => rfl, fun _ _ _ => rfl, fun _ => rfl, ?_, ?_, ?_, ?_, ?_, ?_⟩ <;>
  · intro k
    simp [InvalidConstraint.isKind, ConstraintList.isKind, ExpressionConstraint.isKind,
      ImplicationConstraint.isKind, ConditionalConstraint.isKind, UniquenessConstraint.isKind]

/-! ## Theorems about time-scale values -/

/-- C2: `fromLiteral` succeeds exactly on magnitudes 1, 10, 100 (mapping them
to the corresponding enumerators), and `suffixToTimeUnit` succeeds exactly on
the six suffix strings, mapping each to its unit. -/
theorem time_literal_validation :
    (∀ (v : Int) (u : TimeUnit),
      (TimeScaleValue.fromLiteral v u).isSome = true ↔ (v = 1 ∨ v = 10 ∨ v = 100))
  ∧ (∀ u, TimeScaleValue.fromLiteral 1 u = some ⟨u, .One⟩)
  ∧ (∀ u, TimeScaleValue.fromLiteral 10 u = some ⟨u, .Ten⟩)
  ∧ (∀ u, TimeScaleValue.fromLiteral 100 u = some ⟨u, .Hundred⟩)
  ∧ (∀ s : String, (suffixToTimeUnit s).isSome = true ↔
      (s = "s" ∨ s = "ms" ∨ s = "us" ∨ s = "ns" ∨ s = "ps" ∨ s = "fs"))
  ∧ suffixToTimeUnit "s" = some .Seconds
  ∧ suffixToTimeUnit "ms" = some .Milliseconds
  ∧ suffixToTimeUnit "us" = some .Microseconds
  ∧ suffixToTimeUnit "ns" = some .Nanoseconds
  ∧ suffixToTimeUnit "ps" = some .Picoseconds
  ∧ suffixToTimeUnit "fs" = some .Femtoseconds := by
  refine ⟨fun v u => ?_, fun u => rfl, fun u => rfl, fun u => rfl, fun s => ?_,
    rfl, rfl, rfl, rfl, rfl, rfl⟩
  · unfold TimeScaleValue.fromLiteral
    split_ifs with h1 h2 h3 <;> simp_all
  · unfold suffixToTimeUnit
    split_ifs <;> simp_all

/-- C8: printing any valid `TimeScaleValue` with `toString` and re-parsing the
result through the string constructor succeeds and returns an equal value. -/
theorem timescale_tostring_fromstring_roundtrip :
    ∀ tv : TimeScaleValue, TimeScaleValue.fromString tv.toString = some tv := by
  intro tv
  cases tv with
  | mk u m => cases u <;> cases m <;> decide

/-- C9: `operator>`/`operator==` form a strict total order: exactly one of
`a > b`, `b > a`, `a == b` holds; `a > b` holds exactly when a's unit
enumerator value is smaller (larger physical unit) or the units agree and a's
magnitude is larger; and `>` is transitive. -/
theorem timescale_gt_strict_total_order :
    (∀ a b : TimeScaleValue,
      (TimeScaleValue.gt a b = true ∧ TimeScaleValue.gt b a = false ∧
        TimeScaleValue.eq a b = false) ∨
      (TimeScaleValue.gt a b = false ∧ TimeScaleValue.gt b a = true ∧
        TimeScaleValue.eq a b = false) ∨
      (TimeScaleValue.gt a b = false ∧ TimeScaleValue.gt b a = false ∧
        TimeScaleValue.eq a b = true))
  ∧ (∀ a b : TimeScaleValue, TimeScaleValue.gt a b = true ↔
      (a.unit.val < b.unit.val ∨ (a.unit = b.unit ∧ a.magnitude.val > b.magnitude.val)))
  ∧ (∀ a b c : TimeScaleValue, TimeScaleValue.gt a b = true →
      TimeScaleValue.gt b c = true → TimeScaleValue.gt a c = true) := by
  refine ⟨by decide, by decide, by decide⟩

/-- Witness for C9 at concrete values: 100s > 10s and 10s > 1ms, hence
100s > 1ms by the theorem's transitivity part. -/
theorem timescale_gt_strict_total_order_witness :
    TimeScaleValue.gt ⟨TimeUnit.Seconds, TimeScaleMagnitude.Hundred⟩
      ⟨TimeUnit.Milliseconds, TimeScaleMagnitude.One⟩ = true :=
  timescale_gt_strict_total_order.2.2 ⟨TimeUnit.Seconds, TimeScaleMagnitude.Hundred⟩
    ⟨TimeUnit.Seconds, TimeScaleMagnitude.Ten⟩
    ⟨TimeUnit.Milliseconds, TimeScaleMagnitude.One⟩ (by decide) (by decide)

/-! ## Parser entry points with error recovery (spec sections 4.5, 7)

Parser.h declares `parseCompilationUnit`, `parseExpression`, `parseStatement`
and `parseModule`; their bodies are not in the snapshot. The model follows
the spec's recovery rules: on an unexpected token emit a diagnostic and
synthesize a missing token, resynchronize by collecting skipped tokens, and
always yield a root node. `Option` models the returned pointer; the claim is
that `none` (a null root) is never produced. -/

/-- Kinds of concrete-syntax nodes of the model parser. -/
inductive SKind where
  | compilationUnit
  | moduleDecl
  | stmtNode
  | exprBin
  | exprParen
  deriving DecidableEq, Repr

/-- A concrete syntax node: a token leaf (possibly a synthesized missing
token with empty raw text), a skipped-tokens run produced by
resynchronization, or an interior node with children. -/
inductive SNode where
  | leaf (k : PTok) (missing : Bool)
  | skipped (ks : List PTok)
  | node (kind : SKind) (children : List SNode)

mutual

/-- Pratt-style expression parsing: a primary followed by a binary-operator
loop. Fuel bounds the nesting; exhaustion recovers with a missing token. -/
def parseExprF : Nat → List PTok → Option SNode × List String × List PTok
  | 0, ts => (some (.leaf .ident true), ["expression nesting too deep"], ts)
  | fuel + 1, ts =>
      match parsePrimaryF fuel ts with
      | (none, d, r) => (none, d, r)
      | (some lhs, d, r) => parseBinF fuel lhs d r
  termination_by fuel _ => (fuel, 0)

/-- Primary expressions: identifier, number, or a parenthesized expression
with recovery on a missing close parenthesis; any other token yields a
diagnostic and a synthesized missing identifier without consuming. -/
def parsePrimaryF : Nat → List PTok → Option SNode × List String × List PTok
  | _, .ident :: r => (some (.leaf .ident false), [], r)
  | _, .number :: r => (some (.leaf .number false), [], r)
  | fuel, .lparen :: r =>
      match parseExprF fuel r with
      | (none, d, r1) => (none, d, r1)
      | (some e, d, r1) =>
          match r1 with
          | .rparen :: r2 =>
              (some (.node .exprParen [.leaf .lparen false, e, .leaf .rparen false]), d, r2)
          | _ =>
              (some (.node .exprParen [.leaf .lparen false, e, .leaf .rparen true]),
                d ++ ["expected close parenthesis"], r1)
  | _, ts => (some (.leaf .ident true), ["expected expression"], ts)
  termination_by fuel _ => (fuel, 1)

/-- The binary-operator loop: while the next token is an operator, consume it
and parse the right operand. -/
def parseBinF : Nat → SNode → List String → List PTok →
    Option SNode × List String × List PTok
  | 0, lhs, d, ts => (some lhs, d, ts)
  | fuel + 1, lhs, d, ts =>
      match ts with
      | .plus :: r =>
          match parsePrimaryF fuel r with
          | (none, d2, r2) => (none, d ++ d2, r2)
          | (some rhs, d2, r2) =>
              parseBinF fuel (.node .exprBin [lhs, .leaf .plus false, rhs]) (d ++ d2) r2
      | _ => (some lhs, d, ts)
  termination_by fuel _ _ _ => (fuel, 0)

end

/-- A statement: an expression followed by a semicolon, synthesized when
missing. -/
def parseStatementF (fuel : Nat) (ts : List PTok) :
    Option SNode × List String × List PTok :=
  match parseExprF fuel ts with
  | (none, d, r) => (none, d, r)
  | (some e, d, r) =>
      match r with
      | .semi :: r1 => (some (.node .stmtNode [e, .leaf .semi false]), d, r1)
      | _ => (some (.node .stmtNode [e, .leaf .semi true]),
              d ++ ["expected semicolon"], r)

/-- The statements of a module body up to `endmodule` or end of input;
unexpected tokens are skipped into skipped-tokens nodes (resynchronization). -/
def parseModuleBodyF : Nat → List PTok → List SNode × List String × List PTok
  | 0, ts => ([], [], ts)
  | fuel + 1, ts =>
      match ts with
      | [] => ([], [], [])
      | .endmoduleKw :: _ => ([], [], ts)
      | .ident :: _ | .number :: _ | .lparen :: _ =>
          match parseStatementF fuel ts with
          | (none, d, r) => ([.skipped []], d, r)
          | (some st, d, r) =>
              let (ns, d2, r2) := parseModuleBodyF fuel r
              (st :: ns, d ++ d2, r2)
      | t :: r =>
          let (ns, d2, r2) := parseModuleBodyF fuel r
          (.skipped [t] :: ns, ["skipped unexpected token"] ++ d2, r2)

/-- Expect a token of the given kind: consume it when present, otherwise
diagnose and synthesize a missing token of that kind without consuming. -/
def expectTok (k : PTok) (msg : String) (ts : List PTok) :
    SNode × List String × List PTok :=
  match ts with
  | t :: r => if t = k then (.leaf k false, [], r) else (.leaf k true, [msg], t :: r)
  | [] => (.leaf k true, [msg], [])

/-- A module declaration: `module` keyword, name, semicolon, body,
`endmodule`, every piece synthesized on failure so that a root is always
produced. -/
def parseModuleF (fuel : Nat) (ts : List PTok) :
    Option SNode × List String × List PTok :=
  match ts with
  | .moduleKw :: r =>
      let p1 := expectTok .ident "expected module name" r
      let p2 := expectTok .semi "expected semicolon" p1.2.2
      let pb := parseModuleBodyF fuel p2.2.2
      let p4 := expectTok .endmoduleKw "expected endmodule" pb.2.2
      (some (.node .moduleDecl ([.leaf .moduleKw false, p1.1, p2.1] ++
          pb.1 ++ [p4.1])), p1.2.1 ++ p2.2.1 ++ pb.2.1 ++ p4.2.1, p4.2.2)
  | _ => (some (.node .moduleDecl [.leaf .moduleKw true]), ["expected module"], ts)

/-- The members of a compilation unit: modules, with stray tokens skipped. -/
def parseCUItemsF : Nat → List PTok → List SNode × List String
  | 0, ts => (if ts.isEmpty then [] else [.skipped ts], [])
  | fuel + 1, ts =>
      match ts with
      | [] => ([], [])
      | .moduleKw :: _ =>
          match parseModuleF fuel ts with
          | (none, d, _) => ([.skipped []], d)
          | (some m, d, r) =>
              let (ns, d2) := parseCUItemsF fuel r
              (m :: ns, d ++ d2)
      | t :: r =>
          let (ns, d2) := parseCUItemsF fuel r
          (.skipped [t] :: ns, ["skipped unexpected token"] ++ d2)

/-- Entry point `parseCompilationUnit`. -/
def parseCompilationUnitE (ts : List PTok) : Option SNode × List String :=
  let (items, d) := parseCUItemsF (ts.length + 1) ts
  (some (.node .compilationUnit items), d)

/-- Entry point `parseExpression`. -/
def parseExpressionE (ts : List PTok) : Option SNode × List String :=
  let (e, d, _) := parseExprF (ts.length + 1) ts
  (e, d)

/-- Entry point `parseStatement`. -/
def parseStatementE (ts : List PTok) : Option SNode × List String :=
  let (e, d, _) := parseStatementF (ts.length + 1) ts
  (e, d)

/-- Entry point `parseModule`. -/
def parseModuleE (ts : List PTok) : Option SNode × List String :=
  let (e, d, _) := parseModuleF (ts.length + 1) ts
  (e, d)

/-! ## Theorems about the parser entry points -/

/-- The expression layer never produces a null node, at any fuel. -/
theorem parseF_isSome (fuel : Nat) :
    (∀ ts, (parseExprF fuel ts).1.isSome = true)
  ∧ (∀ ts, (parsePrimaryF fuel ts).1.isSome = true)
  ∧ (∀ lhs d ts, (parseBinF fuel lhs d ts).1.isSome = true) := by
  induction fuel with
  | zero =>
      refine ⟨fun ts => by simp [parseExprF], fun ts => ?_,
        fun lhs d ts => by simp [parseBinF]⟩
      cases ts with
      | nil => simp [parsePrimaryF]
      | cons c t =>
          cases c <;> simp [parsePrimaryF, parseExprF] <;>
            (cases t with
             | nil => simp
             | cons c2 t2 => cases c2 <;> simp)
  | succ n ih =>
      obtain ⟨ihE, ihP, ihB⟩ := ih
      have hE : ∀ ts, (parseExprF (n + 1) ts).1.isSome = true := by
        intro ts
        rcases hp : parsePrimaryF n ts with ⟨o, d, r⟩
        have h := ihP ts
        rw [hp] at h
        cases o with
        | none => simp at h
        | some lhs =>
            rw [parseExprF, hp]
            exact ihB lhs d r
      have hP : ∀ ts, (parsePrimaryF (n + 1) ts).1.isSome = true := by
        intro ts
        cases ts with
        | nil => simp [parsePrimaryF]
        | cons c t =>
            cases c <;> try (simp [parsePrimaryF]; done)
            rcases he : parseExprF (n + 1) t with ⟨o, d, r⟩
            have h := hE t
            rw [he] at h
            cases o with
            | none => simp at h
            | some e =>
                rw [parsePrimaryF, he]
                cases r with
                | nil => simp
                | cons c2 t2 => cases c2 <;> simp
      have hB : ∀ lhs d ts, (parseBinF (n + 1) lhs d ts).1.isSome = true := by
        intro lhs d ts
        cases ts with
        | nil => simp [parseBinF]
        | cons c t =>
            cases c <;> try (simp [parseBinF]; done)
            rcases hp : parsePrimaryF n t with ⟨o, d2, r2⟩
            have h := ihP t
            rw [hp] at h
            cases o with
            | none => simp at h
            | some rhs =>
                rw [parseBinF, hp]
                exact ihB _ _ _
      exact ⟨hE, hP, hB⟩

/-- The statement parser never produces a null node. -/
theorem parseStatementF_isSome (fuel : Nat) (ts : List PTok) :
    (parseStatementF fuel ts).1.isSome = true := by
  rcases he : parseExprF fuel ts with ⟨o, d, r⟩
  have h := (parseF_isSome fuel).1 ts
  rw [he] at h
  cases o with
  | none => simp at h
  | some e =>
      simp only [parseStatementF, he]
      cases r with
      | nil => simp
      | cons c t => cases c <;> simp

/-- The module parser never produces a null node. -/
theorem parseModuleF_isSome (fuel : Nat) (ts : List PTok) :
    (parseModuleF fuel ts).1.isSome = true := by
  cases ts with
  | nil => simp [parseModuleF]
  | cons c t => cases c <;> simp [parseModuleF]

/-- C3: each of the four public parser entry points returns a non-null root
node for every input token stream, including inputs for which diagnostics
were emitted (witnessed by an empty input, where `parseExpression` diagnoses
a missing expression yet still yields a root). -/
theorem parser_entry_points_nonnull :
    (∀ ts, (parseCompilationUnitE ts).1.isSome = true)
  ∧ (∀ ts, (parseExpressionE ts).1.isSome = true)
  ∧ (∀ ts, (parseStatementE ts).1.isSome = true)
  ∧ (∀ ts, (parseModuleE ts).1.isSome = true)
  ∧ ((parseExpressionE []).2 ≠ [] ∧ (parseExpressionE []).1.isSome = true) := by
  refine ⟨fun ts => ?_, fun ts => ?_, fun ts => ?_, fun ts => ?_, ?_, ?_⟩
  · rcases h : parseCUItemsF (ts.length + 1) ts with ⟨items, d⟩
    simp [parseCompilationUnitE, h]
  · rcases h : parseExprF (ts.length + 1) ts with ⟨o, d, r⟩
    have hs := (parseF_isSome (ts.length + 1)).1 ts
    rw [h] at hs
    simpa [parseExpressionE, h] using hs
  · rcases h : parseStatementF (ts.length + 1) ts with ⟨o, d, r⟩
    have hs := parseStatementF_isSome (ts.length + 1) ts
    rw [h] at hs
    simpa [parseStatementE, h] using hs
  · rcases h : parseModuleF (ts.length + 1) ts with ⟨o, d, r⟩
    have hs := parseModuleF_isSome (ts.length + 1) ts
    rw [h] at hs
    simpa [parseModuleE, h] using hs
  · simp [parseExpressionE, parseExprF, parsePrimaryF, parseBinF]
  · simp [parseExpressionE, parseExprF, parsePrimaryF, parseBinF]

/-! ## Theorems about speculative lookahead -/

/-- `scanDimensionList` returns the stream state unchanged. -/
theorem scanDimensionList_state (s : PpState) (i : Nat) :
    (scanDimensionList s i).2.2.2 = s := by
  induction i using scanDimensionList.induct s <;>
    (rw [scanDimensionList]; split_ifs <;> simp_all)

/-- `scanQualifiedName` returns the stream state unchanged. -/
theorem scanQualifiedName_state (s : PpState) (i : Nat) :
    (scanQualifiedName s i).2.2.2 = s := by
  induction i using scanQualifiedName.induct s <;>
    (rw [scanQualifiedName]; split_ifs <;> simp_all)

/-- `scanTypePart` returns the stream state unchanged. -/
theorem scanTypePart_state (s : PpState) (i : Nat) (a b : PTok) :
    (scanTypePart s i a b).2.2.2 = s := by
  induction i, a, b using scanTypePart.induct s <;>
    (rw [scanTypePart]; split_ifs <;> simp_all)

/-- Every peek issued by `scanDimensionList` is within the horizon. -/
theorem scanDimensionList_peeks (s : PpState) (i : Nat) :
    ∀ n ∈ (scanDimensionList s i).2.2.1, n ≤ 3 := by
  induction i using scanDimensionList.induct s <;>
    (rw [scanDimensionList]; split_ifs <;> simp_all <;> omega)

/-- Every peek issued by `scanQualifiedName` is within the horizon. -/
theorem scanQualifiedName_peeks (s : PpState) (i : Nat) :
    ∀ n ∈ (scanQualifiedName s i).2.2.1, n ≤ 3 := by
  induction i using scanQualifiedName.induct s <;>
    (rw [scanQualifiedName]; split_ifs <;> simp_all <;> omega)

/-- Every peek issued by `scanTypePart` is within the horizon. -/
theorem scanTypePart_peeks (s : PpState) (i : Nat) (a b : PTok) :
    ∀ n ∈ (scanTypePart s i a b).2.2.1, n ≤ 3 := by
  induction i, a, b using scanTypePart.induct s <;>
    (rw [scanTypePart]; split_ifs <;> simp_all <;> omega)

/-- Beyond the horizon, `scanDimensionList` answers permissively without
peeking. -/
theorem scanDimensionList_horizon (s : PpState) (i : Nat) (h : 3 < i) :
    scanDimensionList s i = (true, i, [], s) := by
  rw [scanDimensionList]; simp [h]

/-- Beyond the horizon, `scanQualifiedName` answers permissively without
peeking. -/
theorem scanQualifiedName_horizon (s : PpState) (i : Nat) (h : 3 < i) :
    scanQualifiedName s i = (true, i, [], s) := by
  rw [scanQualifiedName]; simp [h]

/-- Beyond the horizon, `scanTypePart` answers permissively without
peeking. -/
theorem scanTypePart_horizon (s : PpState) (i : Nat) (a b : PTok) (h : 3 < i) :
    scanTypePart s i a b = (true, i, [], s) := by
  rw [scanTypePart]; simp [h]

/-- Each disambiguation predicate returns the stream state unchanged. -/
theorem predicates_state (s : PpState) :
    (isPortDeclaration s).2.2 = s ∧ (isNetDeclaration s).2.2 = s ∧
    (isVariableDeclaration s).2.2 = s ∧ (isHierarchyInstantiation s).2.2 = s ∧
    (isNonAnsiPort s).2.2 = s ∧ (isPlainPortName s).2.2 = s := by
  refine ⟨rfl, rfl, ?_, ?_, ?_, ?_⟩
  · have h := scanQualifiedName_state s 0
    rcases hs : scanQualifiedName s 0 with ⟨ok, j, ps, s'⟩
    rw [hs] at h
    unfold isVariableDeclaration
    rw [hs]
    split_ifs <;> simp_all <;> (try (split_ifs <;> simp_all))
  · unfold isHierarchyInstantiation
    split_ifs <;> rfl
  · have h := scanDimensionList_state s 1
    rcases hs : scanDimensionList s 1 with ⟨ok, j, ps, s'⟩
    rw [hs] at h
    unfold isNonAnsiPort
    rw [hs]
    split_ifs <;> simp_all <;> (try (split_ifs <;> simp_all))
  · have h := scanDimensionList_state s 1
    rcases hs : scanDimensionList s 1 with ⟨ok, j, ps, s'⟩
    rw [hs] at h
    unfold isPlainPortName
    rw [hs]
    split_ifs <;> simp_all <;> (try (split_ifs <;> simp_all))

/-- Every peek issued by a disambiguation predicate is within the horizon. -/
theorem predicates_peeks (s : PpState) :
    (∀ n ∈ (isPortDeclaration s).2.1, n ≤ 3) ∧
    (∀ n ∈ (isNetDeclaration s).2.1, n ≤ 3) ∧
    (∀ n ∈ (isVariableDeclaration s).2.1, n ≤ 3) ∧
    (∀ n ∈ (isHierarchyInstantiation s).2.1, n ≤ 3) ∧
    (∀ n ∈ (isNonAnsiPort s).2.1, n ≤ 3) ∧
    (∀ n ∈ (isPlainPortName s).2.1, n ≤ 3) := by
  refine ⟨by simp [isPortDeclaration], by simp [isNetDeclaration], ?_, ?_, ?_, ?_⟩
  · have hp := scanQualifiedName_peeks s 0
    rcases hs : scanQualifiedName s 0 with ⟨ok, j, ps, s'⟩
    rw [hs] at hp
    unfold isVariableDeclaration
    rw [hs]
    split_ifs <;> simp_all <;>
      (try (split_ifs <;> simp_all)) <;>
      (intro n hn) <;> rcases hn with hn | hn <;> simp_all <;> omega
  · unfold isHierarchyInstantiation
    split_ifs <;> simp_all
  · have hp := scanDimensionList_peeks s 1
    rcases hs : scanDimensionList s 1 with ⟨ok, j, ps, s'⟩
    rw [hs] at hp
    unfold isNonAnsiPort
    rw [hs]
    split_ifs <;> simp_all <;>
      (intro n hn) <;> rcases hn with hn | hn <;> simp_all
  · have hp := scanDimensionList_peeks s 1
    rcases hs : scanDimensionList s 1 with ⟨ok, j, ps, s'⟩
    rw [hs] at hp
    unfold isPlainPortName
    rw [hs]
    split_ifs <;> simp_all <;>
      (try (split_ifs <;> simp_all)) <;>
      (intro n hn) <;> rcases hn with hn | hn <;> simp_all <;> omega

/-- C4: the disambiguation predicates and scanners leave the real token
stream unchanged: the stream state (cursor included) after any of them equals
the state before; only the virtual lookahead index advances. -/
theorem disambiguation_stream_unchanged :
    (∀ s : PpState, (isPortDeclaration s).2.2 = s)
  ∧ (∀ s : PpState, (isNetDeclaration s).2.2 = s)
  ∧ (∀ s : PpState, (isVariableDeclaration s).2.2 = s)
  ∧ (∀ s : PpState, (isHierarchyInstantiation s).2.2 = s)
  ∧ (∀ s : PpState, (isNonAnsiPort s).2.2 = s)
  ∧ (∀ s : PpState, (isPlainPortName s).2.2 = s)
  ∧ (∀ (s : PpState) (i : Nat), (scanDimensionList s i).2.2.2 = s)
  ∧ (∀ (s : PpState) (i : Nat), (scanQualifiedName s i).2.2.2 = s) :=
  ⟨fun s => (predicates_state s).1, fun s => (predicates_state s).2.1,
   fun s => (predicates_state s).2.2.1, fun s => (predicates_state s).2.2.2.1,
   fun s => (predicates_state s).2.2.2.2.1, fun s => (predicates_state s).2.2.2.2.2,
   scanDimensionList_state, scanQualifiedName_state⟩

/-- C5: every peek issued during speculative lookahead has an index in
[0,3], and when a decision would require more lookahead each scanner returns
the permissive answer without peeking further. -/
theorem lookahead_peek_horizon :
    (∀ (s : PpState) (i : Nat), ∀ n ∈ (scanDimensionList s i).2.2.1, n ≤ 3)
  ∧ (∀ (s : PpState) (i : Nat), ∀ n ∈ (scanQualifiedName s i).2.2.1, n ≤ 3)
  ∧ (∀ (s : PpState) (i : Nat) (a b : PTok), ∀ n ∈ (scanTypePart s i a b).2.2.1, n ≤ 3)
  ∧ (∀ s : PpState, ∀ n ∈ (isPortDeclaration s).2.1, n ≤ 3)
  ∧ (∀ s : PpState, ∀ n ∈ (isNetDeclaration s).2.1, n ≤ 3)
  ∧ (∀ s : PpState, ∀ n ∈ (isVariableDeclaration s).2.1, n ≤ 3)
  ∧ (∀ s : PpState, ∀ n ∈ (isHierarchyInstantiation s).2.1, n ≤ 3)
  ∧ (∀ s : PpState, ∀ n ∈ (isNonAnsiPort s).2.1, n ≤ 3)
  ∧ (∀ s : PpState, ∀ n ∈ (isPlainPortName s).2.1, n ≤ 3)
  ∧ (∀ (s : PpState) (i : Nat), 3 < i → scanDimensionList s i = (true, i, [], s))
  ∧ (∀ (s : PpState) (i : Nat), 3 < i → scanQualifiedName s i = (true, i, [], s))
  ∧ (∀ (s : PpState) (i : Nat) (a b : PTok), 3 < i →
      scanTypePart s i a b = (true, i, [], s)) :=
  ⟨scanDimensionList_peeks, scanQualifiedName_peeks, scanTypePart_peeks,
   fun s => (predicates_peeks s).1, fun s => (predicates_peeks s).2.1,
   fun s => (predicates_peeks s).2.2.1, fun s => (predicates_peeks s).2.2.2.1,
   fun s => (predicates_peeks s).2.2.2.2.1, fun s => (predicates_peeks s).2.2.2.2.2,
   scanDimensionList_horizon, scanQualifiedName_horizon,
   fun s i a b h => scanTypePart_horizon s i a b h⟩

/-- A concrete stream for the lookahead witness. -/
def ppDemo : PpState := ⟨[.lbracket, .number, .rbracket, .comma], 0⟩

/-- Witness for C5: on a concrete stream with a dimension at the front, the
index 0 that `scanDimensionList` peeks is within the horizon, and at virtual
index 4 the scanner answers permissively without peeking. -/
theorem lookahead_peek_horizon_witness :
    (0 : Nat) ≤ 3 ∧ scanDimensionList ppDemo 4 = (true, 4, [], ppDemo) :=
  ⟨lookahead_peek_horizon.1 ppDemo 0 0
      (by rw [scanDimensionList]; simp [PpState.peek, ppDemo]),
   lookahead_peek_horizon.2.2.2.2.2.2.2.2.2.1 ppDemo 4 (by omega)⟩

/-! ## Theorems about the lexer round-trip -/

/-- The lexer preserves raw text: pending trivia plus the remaining buffer. -/
theorem lexLoop_raw (acc : List Trivia) (cs : List Char) :
    rawOf (lexLoop acc cs) = (acc.map Trivia.text).flatten ++ cs := by
  induction acc, cs using lexLoop.induct <;>
    simp_all [lexLoop, rawOf, Tok.rawText, List.takeWhile_append_dropWhile]

/-- The conditional-inclusion pass preserves raw text: pending disabled text
plus the raw text of the remaining stream. -/
theorem condAux_raw (macros : List String) (skipping : Bool) (pending : List Char)
    (ts : List Tok) :
    rawOf (condAux macros skipping pending ts) = pending ++ rawOf ts := by
  induction skipping, pending, ts using condAux.induct macros
  all_goals rw [condAux.eq_def]
  all_goals simp_all [rawOf, Tok.rawText, prependPending, List.isEmpty_iff]
  all_goals split
  all_goals simp_all [rawOf, Tok.rawText]

/-- C7: lossless round-trip. For every input buffer, concatenating the raw
text of all tokens and attached trivia of the lexed stream in pre-order
yields exactly the buffer, and the same holds after the conditional-inclusion
pass turns skipped regions into disabled-text trivia: every byte is
represented exactly once. -/
theorem lexer_roundtrip_lossless :
    (∀ cs : List Char, rawOf (lexBuffer cs) = cs)
  ∧ (∀ (macros : List String) (cs : List Char),
      rawOf (condPass macros (lexBuffer cs)) = cs) := by
  constructor
  · intro cs
    simpa using lexLoop_raw [] cs
  · intro macros cs
    rw [condPass, condAux_raw]
    simpa using lexLoop_raw [] cs

/-! ## Theorems about command line parsing -/

/-- An unknown long argument is recorded as an errors entry: with the name
not in the map, parsing `[prog, --nm]` appends exactly one unknown-argument
entry (with an optional did-you-mean suffix) and fails. -/
theorem parse_records_unknown_argument (cl : CommandLine) (a0 arg : String)
    (nm : List Char) (hmap : cl.optionMap ≠ [])
    (harg : arg.data = '-' :: '-' :: nm) (hnm : nm ≠ [])
    (hlk : cl.optionMap.lookup (String.mk (splitFirst '=' nm).1) = none) :
    ∃ (sfx : String) (cl' : CommandLine),
      cl.parse [a0, arg] = Except.ok (false, cl') ∧
      cl'.errors = cl.errors ++ [cl'.programName ++
        ": unknown command line argument '" ++ arg ++ "'" ++ sfx] := by
  have hne : cl.optionMap.isEmpty = false := by simpa [List.isEmpty_iff] using hmap
  have hne2 : arg ≠ "--" := by
    intro h
    rw [h, show ("--" : String).data = ['-', '-'] from rfl] at harg
    simp at harg
    exact hnm harg
  have hlen : arg.length = nm.length + 2 := by
    simp [String.length, harg]
  have hfnm : ∀ x, ({ cl with programName := { data := pathFilename a0.data } } :
      CommandLine).findNearestMatch x = cl.findNearestMatch x := fun _ => rfl
  simp only [CommandLine.parse, hne, Bool.false_eq_true, if_false, List.foldl_cons,
    List.foldl_nil]
  simp [parseStep, String.toList, harg, hlen, hne2, CommandLine.findOption, hlk]
  simp only [← harg, hfnm]
  by_cases hn : cl.findNearestMatch arg.data = ""
  · exact ⟨"", by simp [hn, String.append_empty]⟩
  · exact ⟨", did you mean '" ++ cl.findNearestMatch arg.data ++ "'?",
      by simp [hn, String.append_assoc, String.ext_iff]⟩

/-- A missing value is recorded as an errors entry: with the name mapped to
an option that expects a value and no value following, parsing `[prog, --nm]`
appends exactly one no-value-provided entry and fails. -/
theorem parse_records_missing_value (cl : CommandLine) (a0 arg : String)
    (nm : List Char) (idx : Nat) (hmap : cl.optionMap ≠ [])
    (harg : arg.data = '-' :: '-' :: nm) (hnm : nm ≠ [])
    (hsp : splitFirst '=' nm = (nm, none))
    (hlk : cl.optionMap.lookup (String.mk nm) = some idx)
    (hexp : (cl.optGet idx).storage.expectsValue = true) :
    ∃ cl', cl.parse [a0, arg] = Except.ok (false, cl') ∧
      cl'.errors = cl.errors ++ [cl'.programName ++
        ": no value provided for argument '" ++ arg ++ "'"] := by
  have hne : cl.optionMap.isEmpty = false := by simpa [List.isEmpty_iff] using hmap
  have hne2 : arg ≠ "--" := by
    intro h
    rw [h, show ("--" : String).data = ['-', '-'] from rfl] at harg
    simp at harg
    exact hnm harg
  have hlen : arg.length = nm.length + 2 := by
    simp [String.length, harg]
  simp [CommandLine.optGet, List.getD] at hexp
  simp only [CommandLine.parse, hne, Bool.false_eq_true, if_false, List.foldl_cons,
    List.foldl_nil]
  simp [parseStep, String.toList, harg, hlen, hne2, CommandLine.findOption, hsp, hlk,
    CommandLine.optGet, hexp]
  rw [← harg]

/-- An invalid value is recorded as an errors entry: with the name mapped to
an int option and a non-integer value following, parsing `[prog, --nm, v]`
appends exactly one invalid-value entry and fails. -/
theorem parse_records_invalid_value (cl : CommandLine) (a0 arg v : String)
    (nm : List Char) (idx : Nat) (hmap : cl.optionMap ≠ [])
    (harg : arg.data = '-' :: '-' :: nm) (hnm : nm ≠ [])
    (hsp : splitFirst '=' nm = (nm, none))
    (hlk : cl.optionMap.lookup (String.mk nm) = some idx)
    (hstor : (cl.optGet idx).storage = Storage.optI32 none)
    (hv : v ≠ "")
    (hbad : fromCharsInt true (-2147483648) 2147483647 v.data = none) :
    ∃ cl', cl.parse [a0, arg, v] = Except.ok (false, cl') ∧
      cl'.errors = cl.errors ++ [cl'.programName ++ ": " ++
        ("invalid value '" ++ v ++ "' for integer argument '" ++ arg ++ "'")] := by
  have hne : cl.optionMap.isEmpty = false := by simpa [List.isEmpty_iff] using hmap
  have hne2 : arg ≠ "--" := by
    intro h
    rw [h, show ("--" : String).data = ['-', '-'] from rfl] at harg
    simp at harg
    exact hnm harg
  have hlen : arg.length = nm.length + 2 := by
    simp [String.length, harg]
  simp [CommandLine.optGet, List.getD] at hstor
  simp only [CommandLine.parse, hne, Bool.false_eq_true, if_false, List.foldl_cons,
    List.foldl_nil]
  simp [parseStep, String.toList, harg, hlen, hne2, CommandLine.findOption, hsp, hlk,
    CommandLine.optGet, hstor, Storage.expectsValue, CommandLine.setOption, Storage.set,
    Storage.allowValue, parseIntM, hv, hbad, String.ext_iff]

/-- A disallowed positional argument is recorded as an errors entry: with no
positional option registered, parsing `[prog, p]` for a non-dash `p` appends
exactly one positional-arguments-not-allowed entry and fails. -/
theorem parse_records_disallowed_positional (cl : CommandLine) (a0 p : String)
    (hmap : cl.optionMap ≠ []) (hpos : cl.positionalSet = false)
    (hp : p.data.headD ' ' ≠ '-') :
    ∃ cl', cl.parse [a0, p] = Except.ok (false, cl') ∧
      cl'.errors = cl.errors ++ [cl'.programName ++
        ": positional arguments are not allowed (see e.g. '" ++ p ++ "')"] := by
  have hne : cl.optionMap.isEmpty = false := by simpa [List.isEmpty_iff] using hmap
  have hp' : ¬p.data.head?.getD ' ' = '-' := by simpa using hp
  simp only [CommandLine.parse, hne, Bool.false_eq_true, if_false, List.foldl_cons,
    List.foldl_nil]
  simp [parseStep, String.toList, hp', hpos]

/-- C10: `CommandLine::parse` over an argument span throws exactly when the
argument list is empty or no options are registered; otherwise it returns
normally, records each problem — unknown argument, missing value, invalid
value, disallowed positional argument — as an entry in the errors list, and
the returned boolean is true iff the errors list is empty at the end of
parsing. -/
theorem commandLine_parse_throw_and_result :
    (∀ cl : CommandLine, cl.parse [] = Except.error "Expected at least one argument")
  ∧ (∀ (cl : CommandLine) (a : String) (rest : List String), cl.optionMap = [] →
      cl.parse (a :: rest) = Except.error "No options defined")
  ∧ (∀ (cl : CommandLine) (a : String) (rest : List String), cl.optionMap ≠ [] →
      ∃ ok cl', cl.parse (a :: rest) = Except.ok (ok, cl') ∧
        (ok = true ↔ cl'.errors = []))
  ∧ (∀ (cl : CommandLine) (a0 arg : String) (nm : List Char), cl.optionMap ≠ [] →
      arg.data = '-' :: '-' :: nm → nm ≠ [] →
      cl.optionMap.lookup (String.mk (splitFirst '=' nm).1) = none →
      ∃ (sfx : String) (cl' : CommandLine),
        cl.parse [a0, arg] = Except.ok (false, cl') ∧
        cl'.errors = cl.errors ++ [cl'.programName ++
          ": unknown command line argument '" ++ arg ++ "'" ++ sfx])
  ∧ (∀ (cl : CommandLine) (a0 arg : String) (nm : List Char) (idx : Nat),
      cl.optionMap ≠ [] →
      arg.data = '-' :: '-' :: nm → nm ≠ [] →
      splitFirst '=' nm = (nm, none) →
      cl.optionMap.lookup (String.mk nm) = some idx →
      (cl.optGet idx).storage.expectsValue = true →
      ∃ cl', cl.parse [a0, arg] = Except.ok (false, cl') ∧
        cl'.errors = cl.errors ++ [cl'.programName ++
          ": no value provided for argument '" ++ arg ++ "'"])
  ∧ (∀ (cl : CommandLine) (a0 arg v : String) (nm : List Char) (idx : Nat),
      cl.optionMap ≠ [] →
      arg.data = '-' :: '-' :: nm → nm ≠ [] →
      splitFirst '=' nm = (nm, none) →
      cl.optionMap.lookup (String.mk nm) = some idx →
      (cl.optGet idx).storage = Storage.optI32 none →
      v ≠ "" →
      fromCharsInt true (-2147483648) 2147483647 v.data = none →
      ∃ cl', cl.parse [a0, arg, v] = Except.ok (false, cl') ∧
        cl'.errors = cl.errors ++ [cl'.programName ++ ": " ++
          ("invalid value '" ++ v ++ "' for integer argument '" ++ arg ++ "'")])
  ∧ (∀ (cl : CommandLine) (a0 p : String), cl.optionMap ≠ [] →
      cl.positionalSet = false → p.data.headD ' ' ≠ '-' →
      ∃ cl', cl.parse [a0, p] = Except.ok (false, cl') ∧
        cl'.errors = cl.errors ++ [cl'.programName ++
          ": positional arguments are not allowed (see e.g. '" ++ p ++ "')"]) := by
  refine ⟨fun cl => rfl, fun cl a rest h => ?_, fun cl a rest h => ?_,
    fun cl a0 arg nm h1 h2 h3 h4 =>
      parse_records_unknown_argument cl a0 arg nm h1 h2 h3 h4,
    fun cl a0 arg nm idx h1 h2 h3 h4 h5 h6 =>
      parse_records_missing_value cl a0 arg nm idx h1 h2 h3 h4 h5 h6,
    fun cl a0 arg v nm idx h1 h2 h3 h4 h5 h6 h7 h8 =>
      parse_records_invalid_value cl a0 arg v nm idx h1 h2 h3 h4 h5 h6 h7 h8,
    fun cl a0 p h1 h2 h3 =>
      parse_records_disallowed_positional cl a0 p h1 h2 h3⟩
  · simp [CommandLine.parse, h]
  · have hni : cl.optionMap.isEmpty = false := by
      simpa [List.isEmpty_iff] using h
    simp only [CommandLine.parse, hni, Bool.false_eq_true, if_false]
    exact ⟨_, _, rfl, by simp [List.isEmpty_iff]⟩

/-- Witness for C10: with no registered options the parse of `["prog"]`
throws; on the demonstration configuration, `-f` parses cleanly with the
success bit tied to the error list, and each of the four problem classes —
`--bogus` (unknown), `--foo` without a value (missing value), `--foo abc`
(invalid value), and a bare `pos` (disallowed positional) — is recorded as an
errors entry with the parse failing. -/
theorem commandLine_parse_throw_and_result_witness :
    (({} : CommandLine).parse ["prog"] = Except.error "No options defined")
  ∧ (∃ ok cl', demoCl.parse ["prog", "-f"] = Except.ok (ok, cl') ∧
      (ok = true ↔ cl'.errors = []))
  ∧ (∃ (sfx : String) (cl' : CommandLine),
      demoCl.parse ["prog", "--bogus"] = Except.ok (false, cl') ∧
      cl'.errors = demoCl.errors ++ [cl'.programName ++
        ": unknown command line argument '" ++ "--bogus" ++ "'" ++ sfx])
  ∧ (∃ cl', demoCl.parse ["prog", "--foo"] = Except.ok (false, cl') ∧
      cl'.errors = demoCl.errors ++ [cl'.programName ++
        ": no value provided for argument '" ++ "--foo" ++ "'"])
  ∧ (∃ cl', demoCl.parse ["prog", "--foo", "abc"] = Except.ok (false, cl') ∧
      cl'.errors = demoCl.errors ++ [cl'.programName ++ ": " ++
        ("invalid value '" ++ "abc" ++ "' for integer argument '" ++ "--foo" ++ "'")])
  ∧ (∃ cl', demoCl.parse ["prog", "pos"] = Except.ok (false, cl') ∧
      cl'.errors = demoCl.errors ++ [cl'.programName ++
        ": positional arguments are not allowed (see e.g. '" ++ "pos" ++ "')"]) :=
  ⟨commandLine_parse_throw_and_result.2.1 {} "prog" [] rfl,
   commandLine_parse_throw_and_result.2.2.1 demoCl "prog" ["-f"] (by simp [demoCl]),
   commandLine_parse_throw_and_result.2.2.2.1 demoCl "prog" "--bogus" "bogus".toList
     (by simp [demoCl]) rfl (by decide) (by decide),
   commandLine_parse_throw_and_result.2.2.2.2.1 demoCl "prog" "--foo" "foo".toList 0
     (by simp [demoCl]) rfl (by decide) (by decide) (by decide) (by decide),
   commandLine_parse_throw_and_result.2.2.2.2.2.1 demoCl "prog" "--foo" "abc"
     "foo".toList 0 (by simp [demoCl]) rfl (by decide) (by decide) (by decide)
     (by decide) (by decide) (by decide),
   commandLine_parse_throw_and_result.2.2.2.2.2.2 demoCl "prog" "pos"
     (by simp [demoCl]) rfl (by decide)⟩

end Slang
